import Mathlib

/-!
Verification of the aggregation, formatting and resolution logic of the
pytest-pdf plugin (src/pytest_pdf). Text is modelled as `List Char`,
execution phases and verdicts as small inductive types, and the floating
point percentage arithmetic of `chart.py` is idealised over `ℚ`.
-/

set_option linter.unusedVariables false

abbrev Str := List Char

/-- Execution phase of an outcome record (`TestReport.when` in pytest). -/
inductive Phase where
  | setup
  | call
  | teardown
deriving DecidableEq

/-- Verdict of an outcome record (`TestReport.outcome` in pytest). -/
inductive Verdict where
  | passed
  | failed
  | skipped
deriving DecidableEq

/-- One outcome record, the fields of `TestReport` used by
`src/pytest_pdf/pdf_report.py`: the node id, the phase (`report.when`),
the verdict (`report.outcome`) and the project key attached by
`pytest_runtest_makereport`. -/
structure Report where
  nodeid : Str
  when : Phase
  outcome : Verdict
  project : Str
deriving DecidableEq

/-- The collector filter of `PdfReport.pytest_runtest_logreport`
(pdf_report.py line 421): `(report.when == "call") or
(report.when == "setup" and report.outcome == "skipped")`. -/
def qualifies (r : Report) : Bool :=
  decide (r.when = Phase.call) ||
    (decide (r.when = Phase.setup) && decide (r.outcome = Verdict.skipped))

/-- `PdfReport.pytest_runtest_logreport` (pdf_report.py lines 420-422):
appends a qualifying record to `self.reports[report.project]`
(a `defaultdict(list)`), modelled as a function from project key to list. -/
def logreport (state : Str → List Report) (r : Report) : Str → List Report :=
  if qualifies r then
    fun k => if k = r.project then state k ++ [r] else state k
  else state

/-- Folding an incoming record stream through the collector,
starting from the empty `defaultdict(list)`. -/
def collect (records : List Report) : Str → List Report :=
  records.foldl logreport (fun _ => [])

/-- `PdfReport._test_step_results` (pdf_report.py lines 115-120):
the three list comprehensions and the `(passed, skipped, failed)` tuple. -/
def test_step_results (reports : List Report) : ℕ × ℕ × ℕ :=
  let passed :=
    (reports.filter fun r =>
      decide (r.when = Phase.call) && decide (r.outcome = Verdict.passed)).length
  let failed :=
    (reports.filter fun r =>
      decide (r.when = Phase.call) && decide (r.outcome = Verdict.failed)).length
  let skipped :=
    (reports.filter fun r =>
      decide (r.when = Phase.setup) && decide (r.outcome = Verdict.skipped)).length
  (passed, skipped, failed)

/-- Sum of the three components of a statistics tuple. -/
def sum3 (t : ℕ × ℕ × ℕ) : ℕ := t.1 + t.2.1 + t.2.2

/-- Componentwise addition of statistics tuples. -/
def add3 (a b : ℕ × ℕ × ℕ) : ℕ × ℕ × ℕ := (a.1 + b.1, a.2.1 + b.2.1, a.2.2 + b.2.2)

/-- A record counted by one of the three comprehensions of
`_test_step_results`: `(call, passed)`, `(call, failed)` or `(setup, skipped)`. -/
def countedStep (r : Report) : Bool :=
  (decide (r.when = Phase.call) && decide (r.outcome = Verdict.passed)) ||
    (decide (r.when = Phase.call) && decide (r.outcome = Verdict.failed)) ||
    (decide (r.when = Phase.setup) && decide (r.outcome = Verdict.skipped))

/-! Node id splitting. `PdfReport.nodeid_parts` (pdf_report.py lines 103-105)
matches `self.nodeid_pattern = re.compile(r"^(.+)::([^][]+)(?:\x5b.+\x5d)?$")`
(line 98) against the node id and returns `m.groups()`; when the id does not
match, `m` is `None` and `m.groups()` raises an `AttributeError`. The pattern
is embedded as an executable backtracking matcher over `List Char` with
Python `re` semantics: `.` matches any character except a newline, `(.+)` is
greedy with backtracking (so the last viable `::` separator wins), `[^][]+`
is a greedy run of non-bracket characters, the parameter suffix group is
optional, and `$` accepts the end of the string or a single trailing
newline. -/

/-- A character matched by `.` in a Python regex without DOTALL. -/
def dotOk (c : Char) : Bool := decide (c ≠ '\n')

/-- A character matched by the negated class `[^][]`. -/
def notBracket (c : Char) : Bool := decide (c ≠ '[') && decide (c ≠ ']')

/-- Matching of `\x5b.+\x5d$` — an opening bracket, a greedy nonempty run of
non-newline characters, a closing bracket, then the end anchor (which also
accepts one trailing newline). -/
def bracketTail (t : Str) : Bool :=
  match t with
  | [] => false
  | c :: u =>
    if c = '[' then
      match u.getLast? with
      | none => false
      | some d =>
        if d = ']' then decide (u.dropLast ≠ []) && u.dropLast.all dotOk
        else if d = '\n' then
          match u.dropLast.getLast? with
          | none => false
          | some d2 =>
            if d2 = ']' then
              decide (u.dropLast.dropLast ≠ []) && u.dropLast.dropLast.all dotOk
            else false
        else false
    else false

/-- Matching of `([^][]+)(?:\x5b.+\x5d)?$` against the text after the `::`
separator, returning the second capture group (the step name, with any
bracketed parameter suffix excluded from the group). -/
def tailMatch (rest : Str) : Option Str :=
  let g2 := rest.takeWhile notBracket
  if g2 = [] then none
  else
    let t := rest.dropWhile notBracket
    if t = [] then some g2
    else if bracketTail t then some g2
    else none

/-- Attempt to place the literal `::` at the current position, `pre` being
the text consumed so far by the greedy `(.+)` group (which must be
nonempty). -/
def splitHere (pre : Str) (c : Char) (rest : Str) : Option (Str × Str) :=
  if c = ':' then
    match rest with
    | r0 :: rest2 =>
      if r0 = ':' then
        if pre = [] then none
        else Option.map (fun g2 => (pre, g2)) (tailMatch rest2)
      else none
    | [] => none
  else none

/-- Backtracking matcher for `^(.+)::([^][]+)(?:\x5b.+\x5d)?$`: at each
position the greedy `(.+)` first tries to consume the current character
(yielding the longest viable first group), and only on failure places the
`::` separator here. -/
def reMatch (pre : Str) : Str → Option (Str × Str)
  | [] => none
  | c :: rest =>
    match (if dotOk c then reMatch (pre ++ [c]) rest else none) with
    | some r => some r
    | none => splitHere pre c rest

/-- Full-match result of the node id pattern: the two capture groups
`(case path, step name)` or `none` when the id does not match. -/
def nodeidMatch (s : Str) : Option (Str × Str) := reMatch [] s

/-- `PdfReport.nodeid_parts` (pdf_report.py lines 103-105): `m.groups()` on a
successful match; on a failed match `m` is `None` and the attribute access
raises, modelled as `Except.error` carrying the offending node id. -/
def nodeid_parts (s : Str) : Except Str (Str × Str) :=
  match nodeidMatch s with
  | some p => Except.ok p
  | none => Except.error s

/-- The grouping key computed for one record by the `groupby` key lambda of
`PdfReport._test_case_results` (line 124): the case path part of the node
id, paired with the record; a non-matching node id raises. -/
def keyedOf (r : Report) : Except Str (Str × Report) :=
  match nodeid_parts r.nodeid with
  | Except.ok p => Except.ok (p.1, r)
  | Except.error e => Except.error e

/-- Effectful map over a list, stopping at the first raised error — the
evaluation order of the Python iteration that computes every record's
grouping key. -/
def mapME (f : α → Except ε β) : List α → Except ε (List β)
  | [] => Except.ok []
  | a :: as =>
    match f a with
    | Except.error e => Except.error e
    | Except.ok b =>
      match mapME f as with
      | Except.error e => Except.error e
      | Except.ok bs => Except.ok (b :: bs)

/-- `itertools.groupby`: splits a list into maximal contiguous runs of
elements sharing the same key, returning `(key, run)` pairs in order. -/
def pyGroupby (key : α → κ) [DecidableEq κ] : List α → List (κ × List α)
  | [] => []
  | a :: as =>
    match pyGroupby key as with
    | [] => [(key a, [a])]
    | (k, g) :: gs =>
      if key a = k then (k, a :: g) :: gs else (key a, [a]) :: (k, g) :: gs

/-- The accumulation loop of `PdfReport._test_case_results` (pdf_report.py
lines 125-132): per contiguous case group, `failed += 1` when the group has
a failed step, else `passed += 1` when it has a passed step, else
`skipped += 1`. -/
def test_case_loop (acc : ℕ × ℕ × ℕ) : List (List Report) → ℕ × ℕ × ℕ
  | [] => acc
  | g :: gs =>
    let t := test_step_results g
    if 0 < t.2.2 then test_case_loop (acc.1, acc.2.1, acc.2.2 + 1) gs
    else if 0 < t.1 then test_case_loop (acc.1 + 1, acc.2.1, acc.2.2) gs
    else test_case_loop (acc.1, acc.2.1 + 1, acc.2.2) gs

/-- The contribution of a single case group to the rollup of
`_test_case_results`: exactly one unit, chosen by the
failed-over-passed-over-skipped precedence of lines 127-132. -/
def caseIncrement (g : List Report) : ℕ × ℕ × ℕ :=
  let t := test_step_results g
  if 0 < t.2.2 then (0, 0, 1) else if 0 < t.1 then (1, 0, 0) else (0, 1, 0)

/-- `PdfReport._test_case_results` (pdf_report.py lines 122-133): computes
every record's grouping key (any non-matching node id raises and the error
propagates), groups the records into contiguous same-case runs with
`itertools.groupby`, and folds the rollup loop over the groups. -/
def test_case_resultsE (reports : List Report) : Except Str (ℕ × ℕ × ℕ) :=
  match mapME keyedOf reports with
  | Except.error e => Except.error e
  | Except.ok keyed =>
    Except.ok (test_case_loop (0, 0, 0)
      ((pyGroupby Prod.fst keyed).map (fun g => g.2.map Prod.snd)))

/-! Error text formatter, `PdfReport._error_text` (pdf_report.py lines
107-113) with the module constants `ELLIPSIS` and `ERROR_TEXT_MAX_LENGTH`
(lines 27-28). -/

/-- `ELLIPSIS = "..."` (pdf_report.py line 27). -/
def ELLIPSIS : Str := ['.', '.', '.']

/-- `ERROR_TEXT_MAX_LENGTH = 60` (pdf_report.py line 28). -/
def ERROR_TEXT_MAX_LENGTH : ℕ := 60

/-- Helper of `words`: accumulates the current word while scanning. -/
def wordsAux (cur : Str) : Str → List Str
  | [] => if cur = [] then [] else [cur]
  | c :: rest =>
    if c.isWhitespace then
      if cur = [] then wordsAux [] rest else cur :: wordsAux [] rest
    else wordsAux (cur ++ [c]) rest

/-- Python `str.split()` with no argument: the maximal runs of
non-whitespace characters, leading/trailing/repeated whitespace dropped. -/
def words (s : Str) : List Str := wordsAux [] s

/-- Python `" ".join(ws)`. -/
def joinWords : List Str → Str
  | [] => []
  | w :: ws => if ws = [] then w else w ++ ' ' :: joinWords ws

/-- `PdfReport._error_text` (pdf_report.py lines 107-113): split the error
text on whitespace, drop the first token (`lines[1:]`, the prefix), rejoin
with single spaces, append the phase suffix, and truncate to
`ERROR_TEXT_MAX_LENGTH - len(ELLIPSIS)` characters with the ellipsis
appended when too long. -/
def error_text (error : Str) (whenArg : Str) : Str :=
  let lines := words error
  let error1 := joinWords (lines.drop 1)
  let error2 := error1 ++ whenArg
  let max_length := ERROR_TEXT_MAX_LENGTH - ELLIPSIS.length
  if max_length < error2.length then error2.take max_length ++ ELLIPSIS else error2

/-! Chart legend percentages, `percent` and `_Legend.__init__`
(src/pytest_pdf/chart.py lines 9-10 and 48-63). Python float arithmetic and
`round(x, 2)` are idealised over `ℚ`, with `round2` the round-to-two-decimals
operation. -/

/-- `percent` (chart.py lines 9-10):
`(dividend / divisor if divisor else 0) * 100`. -/
def percent (dividend divisor : ℚ) : ℚ :=
  (if divisor ≠ 0 then dividend / divisor else 0) * 100

/-- `round(x, 2)` idealised over `ℚ`. -/
def round2 (x : ℚ) : ℚ := ((round (x * 100) : ℤ) : ℚ) / 100

/-- `LABELS = ("passed", "skipped", "failed")` (pdf_report.py line 87),
the label order handed to the chart legend. -/
def LABELS : List Str :=
  [['p', 'a', 's', 's', 'e', 'd'],
   ['s', 'k', 'i', 'p', 'p', 'e', 'd'],
   ['f', 'a', 'i', 'l', 'e', 'd']]

/-- The label of the synthetic trailing legend row, `"Sum"`. -/
def sumLabel : Str := ['S', 'u', 'm']

/-- The legend rows built by `_Legend.__init__` (chart.py lines 54-62):
labels extended with `"Sum"`, counts extended with the total, percentages
`round(percent(count, sum_), 2)` extended with the literal `100.0`, zipped
into the row series. -/
def legendRows (data : ℕ × ℕ × ℕ) : List (Str × ℕ × ℚ) :=
  let sum_ : ℕ := data.1 + data.2.1 + data.2.2
  let labels_ : List Str := LABELS ++ [sumLabel]
  let counts_ : List ℕ := [data.1, data.2.1, data.2.2] ++ [sum_]
  let percents_ : List ℚ :=
    [round2 (percent data.1 sum_), round2 (percent data.2.1 sum_),
     round2 (percent data.2.2 sum_)] ++ [100]
  List.zip labels_ (List.zip counts_ percents_)

/-- The percentage column of the legend rows. -/
def chartPercents (data : ℕ × ℕ × ℕ) : List ℚ :=
  (legendRows data).map (fun row => row.2.2)

/-! Project resolver. The hook `pytest_pdf_project_name(top, bottom)` is
declared in src/pytest_pdf/hook_specs.py (lines 5-6) but has no
implementation in the repository (the default `pytest_pdf_report_project`
returns a constant), so the resolver is modelled from the spec. Paths are
segment lists and the filesystem is the list of existing directories. -/

/-- A filesystem path, as a list of name segments from the root. -/
abbrev DirPath := List Str

/-- The fixed relative marker path, conventionally `impl/project`. -/
def markerRel : DirPath :=
  [['i', 'm', 'p', 'l'], ['p', 'r', 'o', 'j', 'e', 'c', 't']]

/-- The sentinel "no project" key, shared by every unresolved location. -/
def noProjectKey : DirPath := []

/-- Modelled from the spec: the upward walk of §4.1 of the project resolver
hook `pytest_pdf_project_name`, absent from src. At each directory, if the
marker path exists under it the marker's location is the project key;
reaching the session root (or the filesystem root) without a marker yields
the shared sentinel key; otherwise the walk ascends one directory. -/
def walkUp (fs : List DirPath) (root : DirPath) (dir : DirPath) : DirPath :=
  if (dir ++ markerRel) ∈ fs then dir ++ markerRel
  else if h : dir = root ∨ dir = [] then noProjectKey
  else walkUp fs root dir.dropLast
termination_by dir.length
decreasing_by
  have hne : dir ≠ [] := fun hnil => h (Or.inr hnil)
  have hp : 0 < dir.length := List.length_pos.mpr hne
  simp only [List.length_dropLast]
  omega

/-- Modelled from the spec: `resolve(sessionRoot, testLocation)` of §4.1
starts the upward walk at the directory containing the test location. -/
def resolve (fs : List DirPath) (root : DirPath) (loc : DirPath) : DirPath :=
  walkUp fs root loc.dropLast

/-- The resolver's memoization cache: entries keyed by the exact
`(sessionRoot, testLocation)` input pair. -/
abbrev Cache := List ((DirPath × DirPath) × DirPath)

/-- Modelled from the spec: the memoized resolver of §4.1 — on a cache hit
for the exact input pair return the cached key, otherwise resolve and
record the result. -/
def resolveMemo (fs : List DirPath) (cache : Cache) (root loc : DirPath) :
    DirPath × Cache :=
  match cache.find? (fun e => decide (e.1 = (root, loc))) with
  | some e => (e.2, cache)
  | none =>
    let key := resolve fs root loc
    (key, ((root, loc), key) :: cache)

/-- A cache is coherent when every entry stores the resolver's answer for
its input pair (the run-scoped cache of §4.1 is only ever filled that
way). -/
def CacheOk (fs : List DirPath) (cache : Cache) : Prop :=
  ∀ e ∈ cache, e.2 = resolve fs e.1.1 e.1.2

/-- No directory on the upward walk from `dir` to the session root has the
marker under it — the "unresolved location" condition of §4.1. -/
def NoMarkerOnWalk (fs : List DirPath) (root : DirPath) (dir : DirPath) : Prop :=
  (dir ++ markerRel) ∉ fs ∧
    (¬(dir = root ∨ dir = []) → NoMarkerOnWalk fs root dir.dropLast)
termination_by dir.length
decreasing_by
  rename_i h
  have hne : dir ≠ [] := fun hnil => h (Or.inr hnil)
  have hp : 0 < dir.length := List.length_pos.mpr hne
  simp only [List.length_dropLast]
  omega

/-! Concrete values used by counterexamples and witnesses. -/

/-- A record with phase `call` and verdict `skipped` (a `pytest.skip()`
raised inside the test body): it passes the collector filter but is counted
by none of the three comprehensions of `_test_step_results`. -/
def rCallSkipped : Report :=
  { nodeid := ['a', ':', ':', 'b'], when := Phase.call,
    outcome := Verdict.skipped, project := ['P'] }

/-- Scenario record: case `A`, step `s1`, phase `call`, verdict `passed`. -/
def rA1 : Report :=
  { nodeid := ['A', ':', ':', 's', '1'], when := Phase.call,
    outcome := Verdict.passed, project := ['P'] }

/-- Scenario record: case `A`, step `s2`, phase `call`, verdict `failed`. -/
def rA2 : Report :=
  { nodeid := ['A', ':', ':', 's', '2'], when := Phase.call,
    outcome := Verdict.failed, project := ['P'] }

/-- Scenario record: case `B`, step `s1`, phase `setup`, verdict `skipped`. -/
def rB1 : Report :=
  { nodeid := ['B', ':', ':', 's', '1'], when := Phase.setup,
    outcome := Verdict.skipped, project := ['P'] }

/-- Scenario record: case `B`, step `s2`, phase `call`, verdict `passed` —
used to interleave case `B` between two runs of case `A`. -/
def rB2 : Report :=
  { nodeid := ['B', ':', ':', 's', '2'], when := Phase.call,
    outcome := Verdict.passed, project := ['P'] }

/-- An error text of one prefix word followed by a 70-character word. -/
def longError : Str := 'x' :: ' ' :: List.replicate 70 'b'

/-- The error text `"a b c"`, whose formatted form is short. -/
def abcError : Str := ['a', ' ', 'b', ' ', 'c']

/-- The keyed records of the interleaved scenario `[A.s1, B.s2, A.s2]`. -/
def keyedABA : List (Str × Report) :=
  [(['A'], rA1), (['B'], rB2), (['A'], rA2)]

/-- A record whose node id `"x"` has no `::` separator, so the node id
pattern does not match it. -/
def rBad : Report :=
  { nodeid := ['x'], when := Phase.call,
    outcome := Verdict.passed, project := ['P'] }

/-! Theorems. -/

theorem sum3_step_filter (rs : List Report) :
    sum3 (test_step_results rs) = (rs.filter countedStep).length := by
  induction rs with
  | nil => rfl
  | cons r rs ih =>
    simp only [test_step_results, sum3, List.filter_cons, countedStep] at *
    rcases r with ⟨n, w, o, p⟩
    cases w <;> cases o <;> simp <;> omega

/-- Claim C1 (counterexample): the sum of the step statistics tuple does
not equal the number of records passing the collector filter — a single
record with phase `call` and verdict `skipped` qualifies for collection but
is counted by no component, so the sum is 0 while the qualifying count
is 1. -/
theorem c1_step_sum_counterexample :
    sum3 (test_step_results [rCallSkipped]) ≠
      ([rCallSkipped].filter qualifies).length := by
  decide

/-- Claim C1 (amended): for every list of outcome records, the sum of the
three components of the step statistics tuple returned by
`_test_step_results` equals the number of records whose (phase, verdict)
pair is one of `(call, passed)`, `(call, failed)` or `(setup, skipped)` —
not the number of records passing the collector filter, which also admits
`(call, skipped)` records that no component counts. -/
theorem c1_step_sum_amended (rs : List Report) :
    sum3 (test_step_results rs) = (rs.filter countedStep).length := by
  exact sum3_step_filter rs

/-- Claim C2: for every non-empty case group, the rollup loop of
`_test_case_results` advances the accumulator by exactly one unit in exactly
one component, chosen by precedence — failed when the group's failed-step
count is positive, otherwise passed when its passed-step count is positive,
otherwise skipped. -/
theorem c2_case_rollup_precedence (g : List Report) (gs : List (List Report))
    (acc : ℕ × ℕ × ℕ) (h : g ≠ []) :
    test_case_loop acc (g :: gs) = test_case_loop (add3 acc (caseIncrement g)) gs
    ∧ sum3 (caseIncrement g) = 1
    ∧ (0 < (test_step_results g).2.2 → caseIncrement g = (0, 0, 1))
    ∧ ((test_step_results g).2.2 = 0 → 0 < (test_step_results g).1 →
        caseIncrement g = (1, 0, 0))
    ∧ ((test_step_results g).2.2 = 0 → (test_step_results g).1 = 0 →
        caseIncrement g = (0, 1, 0)) := by
  refine ⟨?_, ?_, ?_, ?_, ?_⟩
  · by_cases hf : 0 < (test_step_results g).2.2
    · simp [test_case_loop, caseIncrement, add3, hf]
    · by_cases hp : 0 < (test_step_results g).1
      · simp [test_case_loop, caseIncrement, add3, hf, hp]
      · simp [test_case_loop, caseIncrement, add3, hf, hp]
  · by_cases hf : 0 < (test_step_results g).2.2
    · simp [caseIncrement, sum3, hf]
    · by_cases hp : 0 < (test_step_results g).1
      · simp [caseIncrement, sum3, hf, hp]
      · simp [caseIncrement, sum3, hf, hp]
  · intro hf
    simp [caseIncrement, hf]
  · intro hf hp
    simp [caseIncrement, hf, hp]
  · intro hf hp
    simp [caseIncrement, hf, hp]

/-- Claim C2 (witness): a case group with one failed step contributes
exactly one unit to the rollup. -/
theorem c2_case_rollup_precedence_witness : sum3 (caseIncrement [rA2]) = 1 :=
  (c2_case_rollup_precedence [rA2] [] (0, 0, 0) (by decide)).2.1

/-- Claim C4: on the scenario records `[(A, s1, call, passed),
(A, s2, call, failed), (B, s1, setup, skipped)]` the step statistics tuple
`(passed, skipped, failed)` is `(1, 1, 1)` and the case statistics tuple is
`(0, 1, 1)`: case `A` rolls up to failed and case `B` to skipped. -/
theorem c4_scenario :
    test_step_results [rA1, rA2, rB1] = (1, 1, 1)
    ∧ test_case_resultsE [rA1, rA2, rB1] = Except.ok (0, 1, 1) := by
  constructor
  · rfl
  · rfl

theorem collect_foldl (records : List Report) :
    ∀ (st : Str → List Report) (k : Str),
      records.foldl logreport st k =
        st k ++ records.filter (fun x => qualifies x && decide (x.project = k)) := by
  induction records with
  | nil => intro st k; simp
  | cons r rs ih =>
    intro st k
    simp only [List.foldl_cons, List.filter_cons, ih]
    by_cases hq : qualifies r = true
    · by_cases hk : r.project = k
      · simp [logreport, hq, hk]
      · have hk2 : ¬(k = r.project) := fun he => hk he.symm
        simp [logreport, hq, hk, hk2]
    · simp [logreport, hq]

/-- Claim C3: one collector call appends the record at the end of its
project's list exactly when its phase is `call` or its phase is `setup`
with verdict `skipped`, leaves every other project list untouched, and
leaves the whole state untouched for a non-qualifying record; consequently
folding the collector over a record stream yields, per project, precisely
the qualifying records of that project in arrival order — no record is
mutated, dropped or reordered. -/
theorem c3_collector_append (state : Str → List Report) (r : Report) :
    (qualifies r = true →
      logreport state r r.project = state r.project ++ [r]
      ∧ ∀ k, k ≠ r.project → logreport state r k = state k)
    ∧ (qualifies r = false → ∀ k, logreport state r k = state k)
    ∧ (qualifies r = true ↔
        (r.when = Phase.call ∨ (r.when = Phase.setup ∧ r.outcome = Verdict.skipped)))
    ∧ (∀ (records : List Report) (k : Str),
        collect records k =
          records.filter (fun x => qualifies x && decide (x.project = k))) := by
  refine ⟨?_, ?_, ?_, ?_⟩
  · intro hq
    constructor
    · simp [logreport, hq]
    · intro k hk
      simp [logreport, hq, hk]
  · intro hq
    intro k
    simp [logreport, hq]
  · simp [qualifies]
  · intro records k
    have h := collect_foldl records (fun _ => []) k
    simpa [collect] using h

/-- Claim C3 (witness): a concrete qualifying record is appended at the end
of its project's list. -/
theorem c3_collector_append_witness :
    logreport (fun _ => []) rA1 rA1.project = [] ++ [rA1] :=
  ((c3_collector_append (fun _ => []) rA1).1 (by decide)).1

theorem test_case_loop_sum (gs : List (List Report)) :
    ∀ acc, sum3 (test_case_loop acc gs) = sum3 acc + gs.length := by
  induction gs with
  | nil => intro acc; simp [test_case_loop]
  | cons g gs ih =>
    intro acc
    by_cases hf : 0 < (test_step_results g).2.2
    · simp only [test_case_loop, hf, if_pos, List.length_cons]
      rw [ih]
      simp [sum3]
      omega
    · by_cases hp : 0 < (test_step_results g).1
      · simp only [test_case_loop, hf, hp, if_true, if_false, decide_True,
          decide_False, ite_false, ite_true, List.length_cons]
        rw [ih]
        simp [sum3]
        omega
      · simp only [test_case_loop, hf, hp, if_true, if_false, decide_True,
          decide_False, ite_false, ite_true, List.length_cons]
        rw [ih]
        simp [sum3]
        omega


/-- Claim C10: `_test_case_results` groups by contiguous runs of equal case
identifiers (`itertools.groupby`), not by a global partition — the sum of
the case statistics tuple equals the number of contiguous same-case runs;
on the interleaved scenario `[A.s1, B.s2, A.s2]` the split case `A`
contributes once per run, giving case statistics `(2, 0, 1)` with sum 3
runs although only 2 distinct cases exist. -/
theorem c10_contiguous_runs (reports : List Report)
    (keyed : List (Str × Report))
    (h : mapME keyedOf reports = Except.ok keyed) :
    test_case_resultsE reports =
      Except.ok (test_case_loop (0, 0, 0)
        ((pyGroupby Prod.fst keyed).map (fun g => g.2.map Prod.snd)))
    ∧ sum3 (test_case_loop (0, 0, 0)
        ((pyGroupby Prod.fst keyed).map (fun g => g.2.map Prod.snd))) =
      (pyGroupby Prod.fst keyed).length
    ∧ mapME keyedOf [rA1, rB2, rA2] = Except.ok keyedABA
    ∧ test_case_resultsE [rA1, rB2, rA2] = Except.ok (2, 0, 1)
    ∧ (pyGroupby Prod.fst keyedABA).length = 3
    ∧ (keyedABA.map Prod.fst).dedup.length = 2 := by
  refine ⟨?_, ?_, ?_, ?_, ?_, ?_⟩
  · simp [test_case_resultsE, h]
  · rw [test_case_loop_sum]
    simp [sum3]
  · rfl
  · rfl
  · rfl
  · rfl

/-- Claim C10 (witness): on the interleaved scenario the rolled-up case
statistics sum to the number of contiguous runs. -/
theorem c10_contiguous_runs_witness :
    sum3 (test_case_loop (0, 0, 0)
        ((pyGroupby Prod.fst keyedABA).map (fun g => g.2.map Prod.snd))) =
      (pyGroupby Prod.fst keyedABA).length :=
  (c10_contiguous_runs [rA1, rB2, rA2] keyedABA (by rfl)).2.1

theorem reMatch_no_colon : ∀ (rest : Str), (∀ c ∈ rest, c ≠ ':') →
    ∀ pre, reMatch pre rest = none := by
  intro rest
  induction rest with
  | nil => intro h pre; rfl
  | cons c r ih =>
    intro h pre
    have hc : c ≠ ':' := h c (List.mem_cons_self c r)
    have hr : ∀ x ∈ r, x ≠ ':' := fun x hx => h x (List.mem_cons_of_mem c hx)
    have hd : reMatch (pre ++ [c]) r = none := ih hr (pre ++ [c])
    simp [reMatch, hd, splitHere, hc]

theorem takeWhile_all_sat {α : Type} {p : α → Bool} :
    ∀ l : List α, (∀ c ∈ l, p c = true) → l.takeWhile p = l := by
  intro l
  induction l with
  | nil => intro h; rfl
  | cons c r ih =>
    intro h
    have hc : p c = true := h c (List.mem_cons_self c r)
    simp [List.takeWhile_cons, hc, ih (fun x hx => h x (List.mem_cons_of_mem c hx))]

theorem dropWhile_all_sat {α : Type} {p : α → Bool} :
    ∀ l : List α, (∀ c ∈ l, p c = true) → l.dropWhile p = [] := by
  intro l
  induction l with
  | nil => intro h; rfl
  | cons c r ih =>
    intro h
    have hc : p c = true := h c (List.mem_cons_self c r)
    simp [List.dropWhile_cons, hc, ih (fun x hx => h x (List.mem_cons_of_mem c hx))]

theorem takeWhile_append_sat {α : Type} {p : α → Bool} :
    ∀ (l1 l2 : List α), (∀ c ∈ l1, p c = true) →
      (l1 ++ l2).takeWhile p = l1 ++ l2.takeWhile p := by
  intro l1
  induction l1 with
  | nil => intro l2 h; rfl
  | cons c r ih =>
    intro l2 h
    have hc : p c = true := h c (List.mem_cons_self c r)
    simp [List.takeWhile_cons, hc, ih l2 (fun x hx => h x (List.mem_cons_of_mem c hx))]

theorem dropWhile_append_sat {α : Type} {p : α → Bool} :
    ∀ (l1 l2 : List α), (∀ c ∈ l1, p c = true) →
      (l1 ++ l2).dropWhile p = l2.dropWhile p := by
  intro l1
  induction l1 with
  | nil => intro l2 h; rfl
  | cons c r ih =>
    intro l2 h
    have hc : p c = true := h c (List.mem_cons_self c r)
    simp [List.dropWhile_cons, hc, ih l2 (fun x hx => h x (List.mem_cons_of_mem c hx))]

theorem tailMatch_plain (step : Str) (hne : step ≠ [])
    (hstep : ∀ c ∈ step, notBracket c = true) : tailMatch step = some step := by
  have htw : step.takeWhile notBracket = step := takeWhile_all_sat step hstep
  have hdw : step.dropWhile notBracket = [] := dropWhile_all_sat step hstep
  simp [tailMatch, htw, hdw, hne]

theorem tailMatch_bracket (step d : Str) (hne : step ≠ [])
    (hstep : ∀ c ∈ step, notBracket c = true) (hd : d ≠ [])
    (hdot : ∀ c ∈ d, dotOk c = true) :
    tailMatch (step ++ '[' :: (d ++ [']'])) = some step := by
  have hnb : notBracket '[' = false := by decide
  have htw : (step ++ '[' :: (d ++ [']'])).takeWhile notBracket = step := by
    rw [takeWhile_append_sat step _ hstep]
    simp [List.takeWhile_cons, hnb]
  have hdw : (step ++ '[' :: (d ++ [']'])).dropWhile notBracket =
      '[' :: (d ++ [']']) := by
    rw [dropWhile_append_sat step _ hstep]
    simp [List.dropWhile_cons, hnb]
  have hbt : bracketTail ('[' :: (d ++ [']'])) = true := by
    have hcc : d ++ [']'] = d.concat ']' := (List.concat_eq_append d ']').symm
    simp only [bracketTail, hcc, List.getLast?_concat, List.dropLast_concat]
    simp [hd, List.all_eq_true.mpr hdot]
  simp [tailMatch, htw, hdw, hne, hbt]

theorem reMatch_split_at (rest g2 : Str) (hrest : ∀ c ∈ rest, c ≠ ':')
    (htail : tailMatch rest = some g2) :
    ∀ (casePart pre : Str), (∀ c ∈ casePart, dotOk c = true) →
      pre ++ casePart ≠ [] →
      reMatch pre (casePart ++ ':' :: ':' :: rest) = some (pre ++ casePart, g2) := by
  intro casePart
  induction casePart with
  | nil =>
    intro pre hdot hne
    simp only [List.append_nil] at hne
    have hdo : dotOk ':' = true := by decide
    have hdeep2 : reMatch (pre ++ [':', ':']) rest = none :=
      reMatch_no_colon rest hrest (pre ++ [':', ':'])
    have hsplit2 : splitHere (pre ++ [':']) ':' rest = none := by
      cases rest with
      | nil => simp [splitHere]
      | cons r0 rrest =>
        have hr0 : r0 ≠ ':' := hrest r0 (List.mem_cons_self r0 rrest)
        simp [splitHere, hr0]
    have hdeep1 : reMatch (pre ++ [':']) (':' :: rest) = none := by
      simp [reMatch, hdo, hdeep2, hsplit2]
    have hhere : splitHere pre ':' (':' :: rest) =
        Option.map (fun g => (pre, g)) (tailMatch rest) := by
      simp [splitHere, hne]
    simp [reMatch, hdo, hdeep2, hsplit2, hhere, htail]
  | cons a cp ih =>
    intro pre hdot hne
    have ha : dotOk a = true := hdot a (List.mem_cons_self a cp)
    have hcp : ∀ c ∈ cp, dotOk c = true :=
      fun c hc => hdot c (List.mem_cons_of_mem a hc)
    have hne2 : (pre ++ [a]) ++ cp ≠ [] := by simp
    have hdeep : reMatch (pre ++ [a]) (cp ++ ':' :: ':' :: rest) =
        some ((pre ++ [a]) ++ cp, g2) := ih (pre ++ [a]) hcp hne2
    have hres : reMatch pre (a :: (cp ++ ':' :: ':' :: rest)) =
        some ((pre ++ [a]) ++ cp, g2) := by
      simp only [reMatch, ha, if_true, ite_true, hdeep]
    simpa [List.append_assoc] using hres

theorem mapME_error_of_mem {α ε β : Type} (f : α → Except ε β) :
    ∀ (l : List α) (r : α), r ∈ l → (∃ e, f r = Except.error e) →
      ∃ e, mapME f l = Except.error e := by
  intro l
  induction l with
  | nil => intro r hr _; cases hr
  | cons a as ih =>
    intro r hr he
    cases hfa : f a with
    | error e => exact ⟨e, by simp [mapME, hfa]⟩
    | ok b =>
      have hras : r ∈ as := by
        rcases List.mem_cons.mp hr with h1 | h2
        · rcases he with ⟨e, he2⟩
          rw [h1] at he2
          rw [he2] at hfa
          cases hfa
        · exact h2
      rcases ih r hras he with ⟨e, hme⟩
      exact ⟨e, by simp [mapME, hfa, hme]⟩

/-- Claim C8: a node id that does not match the case/step pattern makes the
split raise, and the error propagates out of the aggregation instead of the
record being silently dropped — the aggregation result is an error, not a
success; conversely every matching node id splits into the captured case
path and step name, the bracketed parameter suffix being excluded from the
step-name group. -/
theorem c8_nodeid_split :
    (∀ (reports : List Report) (r : Report), r ∈ reports →
        nodeidMatch r.nodeid = none →
        ∃ e, test_case_resultsE reports = Except.error e)
    ∧ (∀ (s : Str) (p : Str × Str), nodeidMatch s = some p →
        nodeid_parts s = Except.ok p)
    ∧ (∀ (casePart step : Str), casePart ≠ [] → step ≠ [] →
        (∀ c ∈ casePart, dotOk c = true) →
        (∀ c ∈ step, notBracket c = true ∧ c ≠ ':') →
        nodeid_parts (casePart ++ ':' :: ':' :: step) = Except.ok (casePart, step))
    ∧ (∀ (casePart step d : Str), casePart ≠ [] → step ≠ [] → d ≠ [] →
        (∀ c ∈ casePart, dotOk c = true) →
        (∀ c ∈ step, notBracket c = true ∧ c ≠ ':') →
        (∀ c ∈ d, dotOk c = true ∧ c ≠ ':') →
        nodeid_parts (casePart ++ ':' :: ':' :: (step ++ '[' :: (d ++ [']']))) =
          Except.ok (casePart, step)) := by
  refine ⟨?_, ?_, ?_, ?_⟩
  · intro reports r hr hnone
    have hk : ∃ e, keyedOf r = Except.error e :=
      ⟨r.nodeid, by simp [keyedOf, nodeid_parts, hnone]⟩
    rcases mapME_error_of_mem keyedOf reports r hr hk with ⟨e, hm⟩
    exact ⟨e, by simp [test_case_resultsE, hm]⟩
  · intro s p hp
    simp [nodeid_parts, hp]
  · intro casePart step hcne hsne hcdot hstep
    have hrest : ∀ c ∈ step, c ≠ ':' := fun c hc => (hstep c hc).2
    have htail : tailMatch step = some step :=
      tailMatch_plain step hsne (fun c hc => (hstep c hc).1)
    have hm := reMatch_split_at step step hrest htail casePart [] hcdot
      (by simpa using hcne)
    simp only [List.nil_append] at hm
    simp [nodeid_parts, nodeidMatch, hm]
  · intro casePart step d hcne hsne hdne hcdot hstep hd
    have hrest : ∀ c ∈ step ++ '[' :: (d ++ [']']), c ≠ ':' := by
      intro c hc
      rcases List.mem_append.mp hc with h1 | h2
      · exact (hstep c h1).2
      · rcases List.mem_cons.mp h2 with h3 | h4
        · rw [h3]; decide
        · rcases List.mem_append.mp h4 with h5 | h6
          · exact (hd c h5).2
          · rcases List.mem_singleton.mp h6 with h7
            rw [h7]; decide
    have htail : tailMatch (step ++ '[' :: (d ++ [']'])) = some step :=
      tailMatch_bracket step d hsne (fun c hc => (hstep c hc).1) hdne
        (fun c hc => (hd c hc).1)
    have hm := reMatch_split_at (step ++ '[' :: (d ++ [']'])) step hrest htail
      casePart [] hcdot (by simpa using hcne)
    simp only [List.nil_append] at hm
    simp [nodeid_parts, nodeidMatch, hm]

/-- Claim C8 (witness): the record with the malformed node id `"x"` aborts
the aggregation with an error, and the well-formed node id `"A::s[p]"`
splits into case path `"A"` and step name `"s"` with the parameter suffix
removed. -/
theorem c8_nodeid_split_witness :
    (∃ e, test_case_resultsE [rBad] = Except.error e)
    ∧ nodeid_parts (['A'] ++ ':' :: ':' :: (['s'] ++ '[' :: (['p'] ++ [']']))) =
        Except.ok (['A'], ['s']) :=
  ⟨c8_nodeid_split.1 [rBad] rBad (by decide) (by rfl),
   c8_nodeid_split.2.2.2 ['A'] ['s'] ['p'] (by decide) (by decide) (by decide)
     (by decide) (by decide) (by decide)⟩

/-- Claim C5: the formatted error text never exceeds the configured maximum
of 60 characters, and whenever the post-processing text (prefix removed,
suffix appended) is longer than the maximum minus the ellipsis length, the
result is exactly 60 characters long and ends with the ellipsis marker. -/
theorem c5_error_text_length (error whenArg : Str) :
    (error_text error whenArg).length ≤ ERROR_TEXT_MAX_LENGTH
    ∧ (ERROR_TEXT_MAX_LENGTH - ELLIPSIS.length <
        (joinWords ((words error).drop 1) ++ whenArg).length →
      (error_text error whenArg).length = ERROR_TEXT_MAX_LENGTH
      ∧ ELLIPSIS <:+ error_text error whenArg) := by
  by_cases h : ERROR_TEXT_MAX_LENGTH - ELLIPSIS.length <
      (joinWords ((words error).drop 1) ++ whenArg).length
  · have he : error_text error whenArg =
        (joinWords ((words error).drop 1) ++ whenArg).take
          (ERROR_TEXT_MAX_LENGTH - ELLIPSIS.length) ++ ELLIPSIS := by
      simp only [error_text]
      rw [if_pos h]
    have hc1 : ERROR_TEXT_MAX_LENGTH = 60 := rfl
    have hc2 : ELLIPSIS.length = 3 := rfl
    rw [hc1, hc2] at h
    have hlen : (error_text error whenArg).length = 60 := by
      rw [he]
      rw [List.length_append, List.length_take, hc1, hc2]
      omega
    refine ⟨?_, fun _ => ⟨?_, ?_⟩⟩
    · rw [hlen, hc1]
    · rw [hlen, hc1]
    · rw [he]
      exact List.suffix_append _ ELLIPSIS
  · have he : error_text error whenArg =
        joinWords ((words error).drop 1) ++ whenArg := by
      simp only [error_text]
      rw [if_neg h]
    have hc1 : ERROR_TEXT_MAX_LENGTH = 60 := rfl
    have hc2 : ELLIPSIS.length = 3 := rfl
    rw [hc1, hc2] at h
    refine ⟨?_, fun hcon => absurd hcon h⟩
    rw [he, hc1]
    omega

/-- Claim C5 (witness): a formatted error text whose post-processing form
has 70 characters comes out exactly 60 characters long, ending with the
ellipsis. -/
theorem c5_error_text_length_witness :
    (error_text longError []).length = ERROR_TEXT_MAX_LENGTH
    ∧ ELLIPSIS <:+ error_text longError [] :=
  (c5_error_text_length longError []).2 (by decide)

theorem joinWords_drop_one_le (ws : List Str) :
    (joinWords (ws.drop 1)).length ≤ (joinWords ws).length := by
  cases ws with
  | nil => simp
  | cons w ws2 =>
    simp only [List.drop_succ_cons, List.drop_zero, joinWords]
    by_cases hw : ws2 = []
    · simp [hw, joinWords]
    · rw [if_neg hw]
      simp [List.length_append]
      omega

theorem joinWords_wordsAux_le : ∀ (s cur : Str),
    (joinWords (wordsAux cur s)).length ≤ cur.length + s.length := by
  intro s
  induction s with
  | nil =>
    intro cur
    by_cases hc : cur = []
    · simp [wordsAux, hc, joinWords]
    · simp [wordsAux, hc, joinWords]
  | cons c s2 ih =>
    intro cur
    by_cases hw : c.isWhitespace
    · by_cases hc : cur = []
      · have h1 := ih []
        simp only [List.length_nil, Nat.zero_add] at h1
        simp [wordsAux, hw, hc]
        omega
      · have h1 := ih []
        simp only [List.length_nil, Nat.zero_add] at h1
        simp only [wordsAux, hw, if_true, hc, ite_true, ite_false, if_false]
        by_cases hL : wordsAux [] s2 = []
        · simp [joinWords, hL]
        · simp [joinWords, hL, List.length_append]
          omega
    · have h1 := ih (cur ++ [c])
      simp only [List.length_append, List.length_cons, List.length_nil] at h1
      simp [wordsAux, hw]
      omega

/-- Claim C6 (counterexample): error text formatting is not idempotent on
already-short text — on `"a b c"` (formatted form `"b c"`, well under the
limit) a second application yields `"c"`, not `"b c"`, because each
application unconditionally removes the first whitespace-word. -/
theorem c6_idempotence_counterexample :
    (error_text abcError []).length ≤ ERROR_TEXT_MAX_LENGTH - ELLIPSIS.length
    ∧ error_text (error_text abcError []) [] ≠ error_text abcError [] := by
  constructor
  · decide
  · decide

/-- Claim C6 (amended): the formatter is not idempotent; a second
application removes one further leading word. For every text whose
formatted form (with empty phase suffix) stays under the truncation
threshold, formatting the formatted form again yields that form with its
first whitespace-word removed — which equals the formatted form itself only
when the latter has at most one word. -/
theorem c6_second_application (x : Str)
    (h : (error_text x []).length ≤ ERROR_TEXT_MAX_LENGTH - ELLIPSIS.length) :
    error_text (error_text x []) [] =
      joinWords ((words (error_text x [])).drop 1) := by
  have hle : (joinWords ((words (error_text x [])).drop 1)).length ≤
      (error_text x []).length := by
    calc (joinWords ((words (error_text x [])).drop 1)).length
        ≤ (joinWords (words (error_text x []))).length :=
          joinWords_drop_one_le _
      _ ≤ (error_text x []).length := by
          have := joinWords_wordsAux_le (error_text x []) []
          simpa [words] using this
  have hc1 : ERROR_TEXT_MAX_LENGTH = 60 := rfl
  have hc2 : ELLIPSIS.length = 3 := rfl
  rw [hc1, hc2] at h
  generalize hgen : error_text x [] = y at h hle ⊢
  simp only [error_text, List.append_nil]
  rw [if_neg ?hne]
  case hne =>
    intro hcon
    rw [hc1, hc2] at hcon
    omega

/-- Claim C6 (witness): on the concrete short text `"a b c"` the second
application removes one further leading word. -/
theorem c6_second_application_witness :
    error_text (error_text abcError []) [] =
      joinWords ((words (error_text abcError [])).drop 1) :=
  c6_second_application abcError (by decide)

theorem abs_sub_round2 (x : ℚ) : |x - round2 x| ≤ 1 / 200 := by
  have h := abs_sub_round (x * 100)
  have heq : x - round2 x = (x * 100 - ((round (x * 100) : ℤ) : ℚ)) / 100 := by
    rw [round2]; ring
  rw [heq, abs_div, abs_of_pos (by norm_num : (0:ℚ) < 100)]
  linarith

theorem percent_pos_eq (c t : ℚ) (ht : t ≠ 0) : percent c t = 100 * c / t := by
  rw [percent, if_pos ht]; ring

theorem chartPercents_mk (p s f : ℕ) :
    chartPercents (p, s, f) =
      [round2 (percent (p : ℚ) ((p + s + f : ℕ) : ℚ)),
       round2 (percent (s : ℚ) ((p + s + f : ℕ) : ℚ)),
       round2 (percent (f : ℚ) ((p + s + f : ℕ) : ℚ)), 100] := rfl

/-- Claim C7: the chart percentage derivation never divides by zero — with
a zero total every label percentage is 0; with a positive total each label
percentage is `100 * count / total` rounded to two decimals and the three
label percentages sum to 100 within a rounding tolerance of 3/200; and the
synthetic trailing Sum row always carries the total as its count and
exactly 100 as its percentage. -/
theorem c7_chart_percentages (p s f : ℕ) :
    (p + s + f = 0 → chartPercents (p, s, f) = [0, 0, 0, 100])
    ∧ (0 < p + s + f →
        chartPercents (p, s, f) =
          [round2 (100 * (p : ℚ) / ((p : ℚ) + (s : ℚ) + (f : ℚ))),
           round2 (100 * (s : ℚ) / ((p : ℚ) + (s : ℚ) + (f : ℚ))),
           round2 (100 * (f : ℚ) / ((p : ℚ) + (s : ℚ) + (f : ℚ))), 100]
        ∧ |round2 (100 * (p : ℚ) / ((p : ℚ) + (s : ℚ) + (f : ℚ))) +
             round2 (100 * (s : ℚ) / ((p : ℚ) + (s : ℚ) + (f : ℚ))) +
             round2 (100 * (f : ℚ) / ((p : ℚ) + (s : ℚ) + (f : ℚ))) - 100| ≤
           3 / 200)
    ∧ (legendRows (p, s, f)).getLast? = some (sumLabel, p + s + f, 100) := by
  refine ⟨?_, ?_, ?_⟩
  · intro h0
    have hp : p = 0 := by omega
    have hs : s = 0 := by omega
    have hf : f = 0 := by omega
    subst hp; subst hs; subst hf
    rw [chartPercents_mk]
    norm_num [percent, round2]
  · intro hpos
    have htq : ((p + s + f : ℕ) : ℚ) ≠ 0 :=
      ne_of_gt (Nat.cast_pos.mpr hpos)
    have hcast : ((p + s + f : ℕ) : ℚ) = (p : ℚ) + (s : ℚ) + (f : ℚ) := by
      push_cast; ring
    have htq2 : (p : ℚ) + (s : ℚ) + (f : ℚ) ≠ 0 := by
      rw [← hcast]; exact htq
    have hper : ∀ c : ℕ, percent (c : ℚ) ((p + s + f : ℕ) : ℚ) =
        100 * (c : ℚ) / ((p : ℚ) + (s : ℚ) + (f : ℚ)) := by
      intro c
      rw [percent_pos_eq _ _ htq, hcast]
    constructor
    · rw [chartPercents_mk, hper p, hper s, hper f]
    · set a := 100 * (p : ℚ) / ((p : ℚ) + (s : ℚ) + (f : ℚ)) with ha
      set b := 100 * (s : ℚ) / ((p : ℚ) + (s : ℚ) + (f : ℚ)) with hb
      set c := 100 * (f : ℚ) / ((p : ℚ) + (s : ℚ) + (f : ℚ)) with hc
      have hsum : a + b + c = 100 := by
        rw [ha, hb, hc]
        field_simp
        ring
      have k1 : |round2 a - a| ≤ 1 / 200 := by
        rw [abs_sub_comm]; exact abs_sub_round2 a
      have k2 : |round2 b - b| ≤ 1 / 200 := by
        rw [abs_sub_comm]; exact abs_sub_round2 b
      have k3 : |round2 c - c| ≤ 1 / 200 := by
        rw [abs_sub_comm]; exact abs_sub_round2 c
      have hsplit : round2 a + round2 b + round2 c - 100 =
          (round2 a - a) + (round2 b - b) + (round2 c - c) := by
        rw [← hsum]; ring
      rw [hsplit]
      calc |(round2 a - a) + (round2 b - b) + (round2 c - c)|
          ≤ |(round2 a - a) + (round2 b - b)| + |round2 c - c| :=
            abs_add _ _
        _ ≤ |round2 a - a| + |round2 b - b| + |round2 c - c| := by
            linarith [abs_add (round2 a - a) (round2 b - b)]
        _ ≤ 3 / 200 := by linarith
  · rfl

/-- Claim C7 (witness): on the statistics tuple `(1, 1, 1)` the three
rounded label percentages (each 33.33) sum to 99.99, within 3/200 of 100. -/
theorem c7_chart_percentages_witness :
    |round2 (100 * ((1 : ℕ) : ℚ) / (((1 : ℕ) : ℚ) + ((1 : ℕ) : ℚ) + ((1 : ℕ) : ℚ))) +
       round2 (100 * ((1 : ℕ) : ℚ) / (((1 : ℕ) : ℚ) + ((1 : ℕ) : ℚ) + ((1 : ℕ) : ℚ))) +
       round2 (100 * ((1 : ℕ) : ℚ) / (((1 : ℕ) : ℚ) + ((1 : ℕ) : ℚ) + ((1 : ℕ) : ℚ))) - 100| ≤
     3 / 200 :=
  ((c7_chart_percentages 1 1 1).2.1 (by norm_num)).2

theorem noMarker_sentinel (fs : List DirPath) (root : DirPath) :
    ∀ (n : ℕ) (dir : DirPath), dir.length ≤ n → NoMarkerOnWalk fs root dir →
      walkUp fs root dir = noProjectKey := by
  intro n
  induction n with
  | zero =>
    intro dir hlen hnm
    unfold NoMarkerOnWalk at hnm
    have hdir : dir = [] := List.eq_nil_of_length_eq_zero (Nat.le_zero.mp hlen)
    unfold walkUp
    rw [if_neg hnm.1, dif_pos (Or.inr hdir)]
  | succ n ih =>
    intro dir hlen hnm
    unfold NoMarkerOnWalk at hnm
    by_cases hstop : dir = root ∨ dir = []
    · unfold walkUp
      rw [if_neg hnm.1, dif_pos hstop]
    · unfold walkUp
      rw [if_neg hnm.1, dif_neg hstop]
      apply ih
      · have hne : dir ≠ [] := fun h => hstop (Or.inr h)
        have hpos := List.length_pos.mpr hne
        simp only [List.length_dropLast]
        omega
      · exact hnm.2 hstop

/-- Claim C9 (spec-modelled): project resolution is deterministic and
cache-stable — the memoized resolver returns exactly the walk's result for
any coherent cache, keeps the cache coherent, a repeated call with the
identical input pair returns the identical key, and any two unresolved
locations both receive the one shared sentinel key. -/
theorem c9_resolver_deterministic (fs : List DirPath) (cache : Cache)
    (root loc : DirPath) (hc : CacheOk fs cache) :
    (resolveMemo fs cache root loc).1 = resolve fs root loc
    ∧ CacheOk fs (resolveMemo fs cache root loc).2
    ∧ (resolveMemo fs (resolveMemo fs cache root loc).2 root loc).1 =
        (resolveMemo fs cache root loc).1
    ∧ (∀ loc1 loc2 : DirPath, NoMarkerOnWalk fs root loc1.dropLast →
        NoMarkerOnWalk fs root loc2.dropLast →
        resolve fs root loc1 = resolve fs root loc2) := by
  have hval : ∀ (c : Cache), CacheOk fs c →
      (resolveMemo fs c root loc).1 = resolve fs root loc := by
    intro c hcok
    cases hfind : c.find? (fun e => decide (e.1 = (root, loc))) with
    | none => simp [resolveMemo, hfind]
    | some e =>
      have hmem : e ∈ c := List.mem_of_find?_eq_some hfind
      have hpred := List.find?_some hfind
      have he1 : e.1 = (root, loc) := of_decide_eq_true hpred
      have hv := hcok e hmem
      simp only [resolveMemo, hfind]
      rw [hv, he1]
  have hok2 : CacheOk fs (resolveMemo fs cache root loc).2 := by
    cases hfind : cache.find? (fun e => decide (e.1 = (root, loc))) with
    | none =>
      simp only [resolveMemo, hfind]
      intro e he
      rcases List.mem_cons.mp he with h1 | h2
      · rw [h1]
      · exact hc e h2
    | some e0 =>
      simp only [resolveMemo, hfind]
      exact hc
  refine ⟨hval cache hc, hok2, ?_, ?_⟩
  · rw [hval _ hok2, hval cache hc]
  · intro loc1 loc2 h1 h2
    rw [resolve, resolve,
      noMarker_sentinel fs root loc1.dropLast.length loc1.dropLast
        (le_refl _) h1,
      noMarker_sentinel fs root loc2.dropLast.length loc2.dropLast
        (le_refl _) h2]

/-- Claim C9 (witness): with an empty filesystem and empty cache the
memoized resolver returns the resolver's value at a concrete location. -/
theorem c9_resolver_deterministic_witness :
    (resolveMemo [] [] [] [['a']]).1 = resolve [] [] [['a']] :=
  (c9_resolver_deterministic [] [] [] [['a']]
    (fun e he => absurd he (List.not_mem_nil e))).1
